import Mathlib

/-!
Verification development for `task_manager_simple_cloud.py`
(class `SimpleCloudTaskManager` plus the surrounding streamlit app).

The program keeps an in-memory list of task dictionaries and persists the
whole collection to a single JSON file (`tasks.json`).  We embed it at two
levels:

* a structured level, where the file's JSON content — when it is a
  well-formed array of task records — is a `List Task`, and every manager
  method becomes a pure function from (manager state, file state) to
  (return value, manager state, file state);
* a JSON level (`JVal`), used to model `load_tasks` on *arbitrary* JSON
  content, where Python's dynamic typing matters (iterating a non-list,
  calling `.get` on a non-dict raise exceptions not caught by the code).

Exceptions that escape a method are modelled with `Except String`; the
string names the Python exception class.
-/

namespace TaskMgr

/-- A task record, with exactly the fields built by
`SimpleCloudTaskManager.add_task` (lines 64–73 of the source):
`id`, `user_id`, `title`, `description`, `priority`, `completed`,
`created_at`, `completed_at`.  `user_id` is `Option String` because
`self.user_id` may be Python `None`; `completed_at` is `Option String`
because it is `None` until the task is completed.  Timestamps
(`datetime.now().isoformat()`) are carried as opaque strings supplied by
the caller as a `now` argument. -/
structure Task where
  id : Nat
  user_id : Option String
  title : String
  description : String
  priority : String
  completed : Bool
  created_at : String
  completed_at : Option String
deriving DecidableEq, Repr

/-- The state of the `tasks.json` file at the structured level:
absent, present but not valid JSON, or present with content a
well-formed JSON array of task records. -/
inductive FileState where
  | absent : FileState
  | invalid : FileState
  | valid : List Task → FileState
deriving DecidableEq, Repr

/-- Python `str.strip()`: drop whitespace from both ends.  (Python also
strips a few exotic unicode whitespace characters; every input in this
development is ASCII, where the two coincide.) -/
def pyStrip (s : String) : String :=
  String.mk ((s.data.dropWhile Char.isWhitespace).reverse.dropWhile Char.isWhitespace).reverse

/-- Python truthiness of a string: the empty string is falsy. -/
def strTruthy (s : String) : Bool := !s.isEmpty

/-- Python truthiness of `self.user_id` (a string or `None`):
`None` and `""` are falsy. -/
def optStrTruthy : Option String → Bool
  | none => false
  | some s => strTruthy s

/-- The mutable state of a `SimpleCloudTaskManager` object:
`self.tasks` and `self.user_id`. -/
structure SimpleCloudTaskManager where
  tasks : List Task
  user_id : Option String
deriving DecidableEq, Repr

/-- The task records stored in the file; an absent or invalid file holds
none (this is how both `load_tasks` and `save_tasks` treat those cases). -/
def fileTasks : FileState → List Task
  | FileState.absent => []
  | FileState.invalid => []
  | FileState.valid ts => ts

/-- `load_tasks` (source lines 21–33) with the identity passed explicitly
(the method reads `self.user_id`): an absent file or one whose content is
not valid JSON yields `[]` (the `except (json.JSONDecodeError,
FileNotFoundError)` clause); a well-formed array is filtered to the
current user's records when `self.user_id` is truthy, and returned whole
otherwise. -/
def load_tasks (uid : Option String) (fs : FileState) : List Task :=
  match fs with
  | FileState.absent => []
  | FileState.invalid => []
  | FileState.valid all =>
    if optStrTruthy uid then all.filter (fun t => t.user_id == uid) else all

/-- `__init__` (source lines 13–15).  It runs `self.tasks =
self.load_tasks()` *before* `self.user_id = None`.  When the file is
absent, `load_tasks` returns `[]` at line 33 without touching
`self.user_id`; when the content is invalid JSON, `json.load` raises
`JSONDecodeError`, caught, returning `[]`.  But when the file parses,
control reaches `if self.user_id:` (line 28) while the attribute does not
exist yet, raising `AttributeError` — which the `except` clause (only
`JSONDecodeError` and `FileNotFoundError`) does not catch, so construction
fails. -/
def constructManager : FileState → Except String SimpleCloudTaskManager
  | FileState.absent => Except.ok ⟨[], none⟩
  | FileState.invalid => Except.ok ⟨[], none⟩
  | FileState.valid _ => Except.error "AttributeError"

/-- `set_user_id` (lines 17–19): sets `self.user_id` and nothing else —
in particular it does not reload `self.tasks` from the file. -/
def set_user_id (m : SimpleCloudTaskManager) (uid : String) : SimpleCloudTaskManager :=
  { m with user_id := some uid }

/-- `save_tasks` (lines 35–57): re-reads the whole file (any read error
gives `[]`, by the bare `except` at line 44); when `self.user_id` is
truthy, drops every record whose `user_id` equals it and appends
`self.tasks`; writes the merged array back.  When `self.user_id` is falsy
the merge block is skipped and the old content is rewritten unchanged. -/
def save_tasks (m : SimpleCloudTaskManager) (fs : FileState) : FileState :=
  let all := fileTasks fs
  let merged :=
    if optStrTruthy m.user_id then
      all.filter (fun t => !(t.user_id == m.user_id)) ++ m.tasks
    else all
  FileState.valid merged

/-- `add_task` (lines 59–77): returns `False` when the stripped title is
empty; otherwise builds the new record with `id = len(self.tasks) + 1`,
the current user, stripped title and description, the given priority,
`completed = False`, `created_at = now`, `completed_at = None`, appends
it, saves, and returns `True`.  The triple is (return value, new manager
state, new file state). -/
def add_task (m : SimpleCloudTaskManager) (fs : FileState)
    (title description priority now : String) :
    Bool × SimpleCloudTaskManager × FileState :=
  if (pyStrip title).isEmpty then (false, m, fs)
  else
    let task : Task :=
      { id := m.tasks.length + 1
        user_id := m.user_id
        title := pyStrip title
        description := pyStrip description
        priority := priority
        completed := false
        created_at := now
        completed_at := none }
    let m' := { m with tasks := m.tasks ++ [task] }
    (true, m', save_tasks m' fs)

/-- The `for task in self.tasks: if task["id"] == task_id: …; return True`
loop shared by `mark_complete` and `mark_incomplete` (lines 79–97):
applies `f` to the *first* task whose id matches and stops; `none` when no
task matches (the loop falls through and the method returns `False`). -/
def modifyFirst (f : Task → Task) (tid : Nat) : List Task → Option (List Task)
  | [] => none
  | t :: ts =>
    if t.id == tid then some (f t :: ts)
    else
      match modifyFirst f tid ts with
      | some ts' => some (t :: ts')
      | none => none

/-- The loop of `delete_task` (lines 99–106): `del self.tasks[i]` for the
first index whose task's id matches; `none` when no task matches. -/
def deleteFirst (tid : Nat) : List Task → Option (List Task)
  | [] => none
  | t :: ts =>
    if t.id == tid then some ts
    else
      match deleteFirst tid ts with
      | some ts' => some (t :: ts')
      | none => none

/-- The mutation `mark_complete` performs on the found task (lines 83–84):
`task["completed"] = True; task["completed_at"] = datetime.now().isoformat()`. -/
def completeUpd (now : String) (t : Task) : Task :=
  { t with completed := true, completed_at := some now }

/-- The mutation `mark_incomplete` performs on the found task (lines 93–94):
`task["completed"] = False; task["completed_at"] = None`. -/
def incompleteUpd (t : Task) : Task :=
  { t with completed := false, completed_at := none }

/-- `mark_complete` (lines 79–87). -/
def mark_complete (m : SimpleCloudTaskManager) (fs : FileState) (tid : Nat)
    (now : String) : Bool × SimpleCloudTaskManager × FileState :=
  match modifyFirst (completeUpd now) tid m.tasks with
  | some ts => let m' := { m with tasks := ts }; (true, m', save_tasks m' fs)
  | none => (false, m, fs)

/-- `mark_incomplete` (lines 89–97). -/
def mark_incomplete (m : SimpleCloudTaskManager) (fs : FileState) (tid : Nat) :
    Bool × SimpleCloudTaskManager × FileState :=
  match modifyFirst incompleteUpd tid m.tasks with
  | some ts => let m' := { m with tasks := ts }; (true, m', save_tasks m' fs)
  | none => (false, m, fs)

/-- `delete_task` (lines 99–106). -/
def delete_task (m : SimpleCloudTaskManager) (fs : FileState) (tid : Nat) :
    Bool × SimpleCloudTaskManager × FileState :=
  match deleteFirst tid m.tasks with
  | some ts => let m' := { m with tasks := ts }; (true, m', save_tasks m' fs)
  | none => (false, m, fs)

/-- `get_tasks` (lines 108–112). -/
def get_tasks (m : SimpleCloudTaskManager) (show_completed : Bool) : List Task :=
  if show_completed then m.tasks
  else m.tasks.filter (fun t => !t.completed)

/-- The view's priority ranking (line 293):
`priority_order = {"High": 3, "Medium": 2, "Low": 1}` with
`.get(…, 0)` for any other string. -/
def priority_order (p : String) : Nat :=
  if p == "High" then 3 else if p == "Medium" then 2
  else if p == "Low" then 1 else 0

/-- One insertion step of the stable descending sort below: `t` (earlier
in the original list) is placed before the first element whose rank is no
greater than `t`'s, so elements of equal rank keep their original order. -/
def insertPriorityDesc (t : Task) : List Task → List Task
  | [] => [t]
  | u :: us =>
    if priority_order u.priority ≤ priority_order t.priority then t :: u :: us
    else u :: insertPriorityDesc t us

/-- The View-Tasks page's `tasks.sort(key=lambda x: priority_order.get(
x["priority"], 0), reverse=True)` (line 294): a stable sort, descending by
rank — Python's `reverse=True` keeps equal-key elements in list order. -/
def sortPriorityDesc : List Task → List Task
  | [] => []
  | t :: ts => insertPriorityDesc t (sortPriorityDesc ts)

/-! ### The JSON level

`load_tasks` on arbitrary JSON content.  `json.load` can return any JSON
value; the code then runs `[task for task in all_tasks if
task.get('user_id') == self.user_id]`.  Iterating a JSON array yields its
elements, iterating an object yields its keys (strings), iterating a
string yields its characters, and iterating `null` / a bool / a number
raises `TypeError`; `.get` exists only on objects (dicts), so any
non-object element raises `AttributeError`.  Neither exception is in the
`except (json.JSONDecodeError, FileNotFoundError)` clause. -/

/-- A JSON value, as returned by `json.load`. -/
inductive JVal where
  | jnull : JVal
  | jbool : Bool → JVal
  | jnum : Int → JVal
  | jstr : String → JVal
  | jarr : List JVal → JVal
  | jobj : List (String × JVal) → JVal

/-- Python `dict.get(key)`: the value when the key is present, `None`
otherwise. -/
def pyGet (fields : List (String × JVal)) (k : String) : JVal :=
  match fields.lookup k with
  | some v => v
  | none => JVal.jnull

/-- The comparison `task.get('user_id') == self.user_id`: Python `==`
between a JSON value and a string (or `None`).  A string equals only the
equal string; `None` equals only `None`; no other cross-type equality
arises here. -/
def pyEqUser (v : JVal) (uid : Option String) : Bool :=
  match v, uid with
  | JVal.jstr s, some u => s == u
  | JVal.jnull, none => true
  | _, _ => false

/-- The list comprehension of line 29 over the elements of a JSON array:
keeps each object whose `user_id` field equals `self.user_id`; raises
`AttributeError` at the first non-object element (`.get` on a non-dict). -/
def filterUserJ (uid : Option String) : List JVal → Except String (List JVal)
  | [] => Except.ok []
  | JVal.jobj fields :: rest =>
    match filterUserJ uid rest with
    | Except.ok kept =>
      if pyEqUser (pyGet fields "user_id") uid then
        Except.ok (JVal.jobj fields :: kept)
      else Except.ok kept
    | Except.error e => Except.error e
  | _ :: _ => Except.error "AttributeError"

/-- The state of the file at the JSON level: absent, unparseable, or any
JSON value. -/
inductive JFile where
  | absent : JFile
  | invalid : JFile
  | content : JVal → JFile

/-- `load_tasks` (lines 21–33) at the JSON level, the identity passed
explicitly for `self.user_id`.  Absent file or invalid JSON yield the
empty list (lines 31–33).  With a truthy `self.user_id`, the
comprehension of line 29 runs over the parsed value: element-wise over an
array; over the keys of an object (a string key has no `.get`, so a
non-empty object raises `AttributeError`); over the characters of a
string likewise; `null`, bools and numbers are not iterable
(`TypeError`).  With a falsy `self.user_id` the parsed value is returned
as is (line 30). -/
def load_tasksJ (uid : Option String) (jf : JFile) : Except String JVal :=
  match jf with
  | JFile.absent => Except.ok (JVal.jarr [])
  | JFile.invalid => Except.ok (JVal.jarr [])
  | JFile.content v =>
    if optStrTruthy uid then
      match v with
      | JVal.jarr items =>
        match filterUserJ uid items with
        | Except.ok kept => Except.ok (JVal.jarr kept)
        | Except.error e => Except.error e
      | JVal.jobj fields =>
        if fields.isEmpty then Except.ok (JVal.jarr []) else Except.error "AttributeError"
      | JVal.jstr s =>
        if s.isEmpty then Except.ok (JVal.jarr []) else Except.error "AttributeError"
      | JVal.jnull => Except.error "TypeError"
      | JVal.jbool _ => Except.error "TypeError"
      | JVal.jnum _ => Except.error "TypeError"
    else Except.ok v

/-! ### Reachable session states

One browser session holds one `SimpleCloudTaskManager` in
`st.session_state`.  A step is one of the operations the app can invoke
on it: binding the identity at sign-in (`set_user_id`), or a mutating /
no-op call of `add_task`, `mark_complete`, `mark_incomplete`,
`delete_task`.  Another session may rewrite the shared file at any time
(`extFile`). -/

/-- One app-level operation on the pair (manager state, file state). -/
inductive Step : SimpleCloudTaskManager × FileState → SimpleCloudTaskManager × FileState → Prop where
  | setUid (m : SimpleCloudTaskManager) (fs : FileState) (u : String) :
      Step (m, fs) (set_user_id m u, fs)
  | add (m : SimpleCloudTaskManager) (fs : FileState)
      (title description priority now : String) :
      Step (m, fs) (add_task m fs title description priority now).2
  | complete (m : SimpleCloudTaskManager) (fs : FileState) (tid : Nat) (now : String) :
      Step (m, fs) (mark_complete m fs tid now).2
  | incomplete (m : SimpleCloudTaskManager) (fs : FileState) (tid : Nat) :
      Step (m, fs) (mark_incomplete m fs tid).2
  | delete (m : SimpleCloudTaskManager) (fs : FileState) (tid : Nat) :
      Step (m, fs) (delete_task m fs tid).2
  | extFile (m : SimpleCloudTaskManager) (fs fs' : FileState) :
      Step (m, fs) (m, fs')

/-- States reachable in a session: a successful construction
(`SimpleCloudTaskManager()` in `main`) followed by any number of steps. -/
inductive Reachable : SimpleCloudTaskManager × FileState → Prop where
  | init (m : SimpleCloudTaskManager) (fs : FileState)
      (h : constructManager fs = Except.ok m) : Reachable (m, fs)
  | step (s s' : SimpleCloudTaskManager × FileState)
      (hr : Reachable s) (hs : Step s s') : Reachable s'

/-! ### Operation sequences without deletes (for id uniqueness) -/

/-- An operation other than `delete_task` (and other than sign-in). -/
inductive NDOp where
  | add : String → String → String → String → NDOp
  | complete : Nat → String → NDOp
  | incomplete : Nat → NDOp

/-- Apply one such operation, discarding the boolean result. -/
def applyNDOp (s : SimpleCloudTaskManager × FileState) : NDOp → SimpleCloudTaskManager × FileState
  | NDOp.add title description priority now => (add_task s.1 s.2 title description priority now).2
  | NDOp.complete tid now => (mark_complete s.1 s.2 tid now).2
  | NDOp.incomplete tid => (mark_incomplete s.1 s.2 tid).2

/-- Run a sequence of non-delete operations. -/
def runNDOps (s : SimpleCloudTaskManager × FileState) (ops : List NDOp) :
    SimpleCloudTaskManager × FileState :=
  ops.foldl applyNDOp s

/-! ### Concrete scenarios -/

/-- A record owned by another identity, as it could sit in `tasks.json`. -/
def bobTask : Task :=
  { id := 1, user_id := some "bob_example_com", title := "pay rent"
    description := "", priority := "High", completed := false
    created_at := "2024-01-01T09:00:00", completed_at := none }

/-- A record owned by `alice_example_com`. -/
def aliceTask : Task :=
  { id := 1, user_id := some "alice_example_com", title := "Buy milk"
    description := "", priority := "Low", completed := false
    created_at := "2024-05-01T10:00:00", completed_at := none }

/-- A session for `alice_example_com`, on an initially absent file:
add task "a", add task "b", delete id 1, add task "c".  After the delete
the list has length 1, so the last `add_task` assigns `id = 2` to "c" —
the same id task "b" already carries. -/
def dupScenario : SimpleCloudTaskManager × FileState :=
  let s1 := (add_task ⟨[], some "alice_example_com"⟩ FileState.absent "a" "" "Medium" "t1").2
  let s2 := (add_task s1.1 s1.2 "b" "" "Medium" "t2").2
  let s3 := (delete_task s2.1 s2.2 1).2
  (add_task s3.1 s3.2 "c" "" "Medium" "t3").2

/-! ## Helper lemmas -/

/-- A successful construction always yields the empty working list and an
unset identity (the only non-raising paths of `__init__` are the absent
file and the invalid-JSON file). -/
theorem constructManager_ok {fs : FileState} {m : SimpleCloudTaskManager}
    (h : constructManager fs = Except.ok m) : m.tasks = [] ∧ m.user_id = none := by
  cases fs <;> simp [constructManager] at h <;> simp [← h]

theorem modifyFirst_none_of (f : Task → Task) (tid : Nat) (ts : List Task)
    (h : ∀ t ∈ ts, t.id ≠ tid) : modifyFirst f tid ts = none := by
  induction ts with
  | nil => rfl
  | cons t ts ih =>
    have ht : (t.id == tid) = false := by
      simp only [beq_eq_false_iff_ne, ne_eq]
      exact h t (List.mem_cons_self t ts)
    have hts := ih (fun u hu => h u (List.mem_cons_of_mem t hu))
    simp [modifyFirst, ht, hts]

theorem modifyFirst_mem (f : Task → Task) (tid : Nat) {ts ts' : List Task}
    (h : modifyFirst f tid ts = some ts') :
    ∀ t' ∈ ts', t' ∈ ts ∨ ∃ t ∈ ts, t' = f t := by
  induction ts generalizing ts' with
  | nil => simp [modifyFirst] at h
  | cons t ts ih =>
    by_cases ht : (t.id == tid) = true
    · simp [modifyFirst, ht] at h
      intro t' ht'
      rw [← h] at ht'
      rcases List.mem_cons.mp ht' with h1 | h2
      · exact Or.inr ⟨t, List.mem_cons_self t ts, h1⟩
      · exact Or.inl (List.mem_cons_of_mem t h2)
    · simp only [modifyFirst, ht, Bool.false_eq_true, if_false] at h
      cases hrec : modifyFirst f tid ts with
      | none => rw [hrec] at h; simp at h
      | some tsr =>
        rw [hrec] at h
        simp at h
        intro t' ht'
        rw [← h] at ht'
        rcases List.mem_cons.mp ht' with h1 | h2
        · exact Or.inl (h1 ▸ List.mem_cons_self t ts)
        · rcases ih hrec t' h2 with h3 | ⟨u, hu, he⟩
          · exact Or.inl (List.mem_cons_of_mem t h3)
          · exact Or.inr ⟨u, List.mem_cons_of_mem t hu, he⟩

theorem modifyFirst_spec (f : Task → Task) (tid : Nat) {ts ts' : List Task}
    (h : modifyFirst f tid ts = some ts') :
    ∃ i, ∃ hi : i < ts.length,
      (ts.get ⟨i, hi⟩).id = tid ∧
      (∀ j, ∀ hj : j < ts.length, j < i → (ts.get ⟨j, hj⟩).id ≠ tid) ∧
      ts' = ts.take i ++ [f (ts.get ⟨i, hi⟩)] ++ ts.drop (i + 1) := by
  induction ts generalizing ts' with
  | nil => simp [modifyFirst] at h
  | cons t ts ih =>
    by_cases ht : (t.id == tid) = true
    · simp [modifyFirst, ht] at h
      refine ⟨0, Nat.succ_pos _, by simpa using beq_iff_eq.mp ht, ?_, ?_⟩
      · intro j hj hj0; omega
      · simpa using h.symm
    · simp only [modifyFirst, ht, Bool.false_eq_true, if_false] at h
      cases hrec : modifyFirst f tid ts with
      | none => rw [hrec] at h; simp at h
      | some tsr =>
        rw [hrec] at h
        simp at h
        obtain ⟨i, hi, hid, hprior, hshape⟩ := ih hrec
        refine ⟨i + 1, Nat.succ_lt_succ hi, hid, ?_, ?_⟩
        · intro j hj hji
          cases j with
          | zero =>
            simpa using fun he => ht (beq_iff_eq.mpr he)
          | succ j' =>
            exact hprior j' (Nat.lt_of_succ_lt_succ hj) (Nat.lt_of_succ_lt_succ hji)
        · rw [← h, hshape]
          rfl

theorem modifyFirst_map_id (f : Task → Task) (tid : Nat)
    (hf : ∀ t, (f t).id = t.id) {ts ts' : List Task}
    (h : modifyFirst f tid ts = some ts') : ts'.map Task.id = ts.map Task.id := by
  induction ts generalizing ts' with
  | nil => simp [modifyFirst] at h
  | cons t ts ih =>
    by_cases ht : (t.id == tid) = true
    · simp [modifyFirst, ht] at h
      rw [← h]
      simp [hf]
    · simp only [modifyFirst, ht, Bool.false_eq_true, if_false] at h
      cases hrec : modifyFirst f tid ts with
      | none => rw [hrec] at h; simp at h
      | some tsr =>
        rw [hrec] at h
        simp at h
        rw [← h]
        simp [ih hrec]

theorem deleteFirst_none_of (tid : Nat) (ts : List Task)
    (h : ∀ t ∈ ts, t.id ≠ tid) : deleteFirst tid ts = none := by
  induction ts with
  | nil => rfl
  | cons t ts ih =>
    have ht : (t.id == tid) = false := by
      simp only [beq_eq_false_iff_ne, ne_eq]
      exact h t (List.mem_cons_self t ts)
    have hts := ih (fun u hu => h u (List.mem_cons_of_mem t hu))
    simp [deleteFirst, ht, hts]

theorem deleteFirst_subset (tid : Nat) {ts ts' : List Task}
    (h : deleteFirst tid ts = some ts') : ∀ t' ∈ ts', t' ∈ ts := by
  induction ts generalizing ts' with
  | nil => simp [deleteFirst] at h
  | cons t ts ih =>
    by_cases ht : (t.id == tid) = true
    · simp [deleteFirst, ht] at h
      intro t' ht'
      exact List.mem_cons_of_mem t (h ▸ ht')
    · simp only [deleteFirst, ht, Bool.false_eq_true, if_false] at h
      cases hrec : deleteFirst tid ts with
      | none => rw [hrec] at h; simp at h
      | some tsr =>
        rw [hrec] at h
        simp at h
        intro t' ht'
        rw [← h] at ht'
        rcases List.mem_cons.mp ht' with h1 | h2
        · exact h1 ▸ List.mem_cons_self t ts
        · exact List.mem_cons_of_mem t (ih hrec t' h2)

theorem deleteFirst_spec (tid : Nat) {ts ts' : List Task}
    (h : deleteFirst tid ts = some ts') :
    ∃ i, ∃ hi : i < ts.length,
      (ts.get ⟨i, hi⟩).id = tid ∧
      (∀ j, ∀ hj : j < ts.length, j < i → (ts.get ⟨j, hj⟩).id ≠ tid) ∧
      ts' = ts.take i ++ ts.drop (i + 1) := by
  induction ts generalizing ts' with
  | nil => simp [deleteFirst] at h
  | cons t ts ih =>
    by_cases ht : (t.id == tid) = true
    · simp [deleteFirst, ht] at h
      refine ⟨0, Nat.succ_pos _, by simpa using beq_iff_eq.mp ht, ?_, ?_⟩
      · intro j hj hj0; omega
      · simpa using h.symm
    · simp only [deleteFirst, ht, Bool.false_eq_true, if_false] at h
      cases hrec : deleteFirst tid ts with
      | none => rw [hrec] at h; simp at h
      | some tsr =>
        rw [hrec] at h
        simp at h
        obtain ⟨i, hi, hid, hprior, hshape⟩ := ih hrec
        refine ⟨i + 1, Nat.succ_lt_succ hi, hid, ?_, ?_⟩
        · intro j hj hji
          cases j with
          | zero =>
            simpa using fun he => ht (beq_iff_eq.mpr he)
          | succ j' =>
            exact hprior j' (Nat.lt_of_succ_lt_succ hj) (Nat.lt_of_succ_lt_succ hji)
        · rw [← h, hshape]
          rfl

/-- In a working list whose ids are pairwise distinct, the list left by a
successful `delete_task` holds no task with the deleted id. -/
theorem deleteFirst_not_mem_of_nodup (tid : Nat) {ts ts' : List Task}
    (hnd : (ts.map Task.id).Nodup) (h : deleteFirst tid ts = some ts') :
    ∀ t ∈ ts', t.id ≠ tid := by
  induction ts generalizing ts' with
  | nil => simp [deleteFirst] at h
  | cons t ts ih =>
    simp only [List.map_cons, List.nodup_cons] at hnd
    by_cases ht : (t.id == tid) = true
    · simp [deleteFirst, ht] at h
      intro u hu he
      exact hnd.1 (by
        rw [beq_iff_eq.mp ht, ← he]
        exact List.mem_map_of_mem Task.id (h ▸ hu))
    · simp only [deleteFirst, ht, Bool.false_eq_true, if_false] at h
      cases hrec : deleteFirst tid ts with
      | none => rw [hrec] at h; simp at h
      | some tsr =>
        rw [hrec] at h
        simp at h
        intro u hu
        rw [← h] at hu
        rcases List.mem_cons.mp hu with h1 | h2
        · rw [h1]
          simpa using fun he => ht (beq_iff_eq.mpr he)
        · exact ih hnd.2 hrec u h2

/-- The comprehension of `load_tasks` never raises over a JSON array all
of whose elements are objects. -/
theorem filterUserJ_ok (uid : Option String) (items : List JVal)
    (h : ∀ v ∈ items, ∃ fields, v = JVal.jobj fields) :
    ∃ kept, filterUserJ uid items = Except.ok kept := by
  induction items with
  | nil => exact ⟨[], rfl⟩
  | cons v rest ih =>
    obtain ⟨fields, hv⟩ := h v (List.mem_cons_self v rest)
    obtain ⟨kept, hk⟩ := ih (fun u hu => h u (List.mem_cons_of_mem v hu))
    subst hv
    by_cases hc : pyEqUser (pyGet fields "user_id") uid = true
    · exact ⟨JVal.jobj fields :: kept, by simp [filterUserJ, hk, hc]⟩
    · exact ⟨kept, by simp [filterUserJ, hk, hc]⟩

/-! ## Claim theorems -/

/-- C1.  The claim says that at construction and at every sign-in the
manager's in-memory list holds exactly the Store records owned by the
bound identity.  The code does neither: `__init__` raises
`AttributeError` whenever the file holds valid JSON (it reads
`self.user_id` one line before assigning it) — even though `load_tasks`
run for an identity would return exactly that identity's records — and
`set_user_id`, the only thing sign-in calls on the manager, never reloads
the list from the Store. -/
theorem construct_and_bind_bug :
    constructManager (FileState.valid [bobTask]) = Except.error "AttributeError" ∧
    load_tasks (some "bob_example_com") (FileState.valid [bobTask]) = [bobTask] ∧
    ∀ (m : SimpleCloudTaskManager) (u : String), (set_user_id m u).tasks = m.tasks :=
  ⟨rfl, by decide, fun m u => rfl⟩

/-- C2.  Round trip with cross-identity isolation: for a non-empty
identity `i` (every identity the app derives from a sign-in email is
non-empty) and a task list owned entirely by `i`, saving for `i` and then
loading for `i` returns exactly that list, whatever the prior file held;
and a record of any other owner survives the save and is not returned by
the load. -/
theorem save_load_roundtrip (i : String) (hi : i ≠ "") (ts : List Task)
    (hts : ∀ t ∈ ts, t.user_id = some i) (fs : FileState) :
    load_tasks (some i) (save_tasks ⟨ts, some i⟩ fs) = ts ∧
    ∀ t ∈ fileTasks fs, t.user_id ≠ some i →
      t ∈ fileTasks (save_tasks ⟨ts, some i⟩ fs) ∧
      t ∉ load_tasks (some i) (save_tasks ⟨ts, some i⟩ fs) := by
  have htruthy : optStrTruthy (some i) = true := by
    have hie : i.isEmpty = false := by
      rw [← Bool.not_eq_true, String.isEmpty_iff]
      exact hi
    simp [optStrTruthy, strTruthy, hie]
  have hsave : save_tasks ⟨ts, some i⟩ fs =
      FileState.valid ((fileTasks fs).filter (fun t => !(t.user_id == some i)) ++ ts) := by
    simp [save_tasks, htruthy]
  have hload : load_tasks (some i) (save_tasks ⟨ts, some i⟩ fs) = ts := by
    rw [hsave]
    simp only [load_tasks, htruthy, if_true]
    rw [List.filter_append]
    have h1 : ((fileTasks fs).filter (fun t => !(t.user_id == some i))).filter
        (fun t => t.user_id == some i) = [] := by
      rw [List.filter_eq_nil_iff]
      intro t ht
      have h2 := (List.mem_filter.mp ht).2
      simp only [Bool.not_eq_eq_eq_not, Bool.not_true, beq_eq_false_iff_ne, ne_eq] at h2
      simp [h2]
    have h2 : ts.filter (fun t => t.user_id == some i) = ts :=
      List.filter_eq_self.mpr (fun t ht => by simp [hts t ht])
    rw [h1, h2, List.nil_append]
  refine ⟨hload, fun t htf hto => ⟨?_, ?_⟩⟩
  · rw [hsave]
    show t ∈ (fileTasks fs).filter (fun t => !(t.user_id == some i)) ++ ts
    exact List.mem_append_left _ (List.mem_filter.mpr ⟨htf, by simp [hto]⟩)
  · rw [hload]
    intro hmem
    exact hto (hts t hmem)

/-- Witness for C2 at a concrete input: alice saves her one task over a
file holding bob's record; loading for alice returns exactly her task,
and bob's record is still in the file but not in alice's load. -/
theorem save_load_roundtrip_witness :
    ("alice_example_com" ≠ "") ∧
    load_tasks (some "alice_example_com")
      (save_tasks ⟨[aliceTask], some "alice_example_com"⟩ (FileState.valid [bobTask]))
      = [aliceTask] ∧
    bobTask ∈ fileTasks
      (save_tasks ⟨[aliceTask], some "alice_example_com"⟩ (FileState.valid [bobTask])) ∧
    bobTask ∉ load_tasks (some "alice_example_com")
      (save_tasks ⟨[aliceTask], some "alice_example_com"⟩ (FileState.valid [bobTask])) := by
  have h := save_load_roundtrip "alice_example_com" (by decide) [aliceTask]
    (by intro t ht; rw [List.mem_singleton] at ht; rw [ht]; rfl)
    (FileState.valid [bobTask])
  have h2 := h.2 bobTask (by decide) (by decide)
  exact ⟨by decide, h.1, h2.1, h2.2⟩

/-- C3.  Adding a task whose title strips to the empty string returns
`False` and changes neither the in-memory list nor the file (the method
returns at line 62 before building or saving anything). -/
theorem add_task_blank (m : SimpleCloudTaskManager) (fs : FileState)
    (title description priority now : String) (h : pyStrip title = "") :
    add_task m fs title description priority now = (false, m, fs) := by
  simp [add_task, h, String.isEmpty_iff]

/-- Witness for C3 at a whitespace-only title. -/
theorem add_task_blank_witness :
    pyStrip "   " = "" ∧
    add_task ⟨[], some "alice_example_com"⟩ FileState.absent "   " "d" "High" "t"
      = (false, ⟨[], some "alice_example_com"⟩, FileState.absent) :=
  ⟨by decide,
   add_task_blank ⟨[], some "alice_example_com"⟩ FileState.absent "   " "d" "High" "t"
     (by decide)⟩

/-- C4.  Adding with a title that strips non-empty returns `True` and
appends exactly one record: id is the old length plus one, owner is the
current identity, title and description are stripped, `completed` is
`False`, `created_at` is the current time, `completed_at` is `None`; the
method then saves, and — the service being bound to a (non-empty)
identity, as it is after every sign-in — the new record is in the
rewritten file. -/
theorem add_task_valid (m : SimpleCloudTaskManager) (fs : FileState)
    (title description priority now : String)
    (h : pyStrip title ≠ "") (hu : optStrTruthy m.user_id = true) :
    add_task m fs title description priority now =
      (true,
       { m with tasks := m.tasks ++
          [⟨m.tasks.length + 1, m.user_id, pyStrip title, pyStrip description,
            priority, false, now, none⟩] },
       save_tasks
         { m with tasks := m.tasks ++
            [⟨m.tasks.length + 1, m.user_id, pyStrip title, pyStrip description,
              priority, false, now, none⟩] } fs) ∧
    (⟨m.tasks.length + 1, m.user_id, pyStrip title, pyStrip description,
      priority, false, now, none⟩ : Task)
      ∈ fileTasks (add_task m fs title description priority now).2.2 := by
  have hne : (pyStrip title).isEmpty = false := by
    rw [← Bool.not_eq_true, String.isEmpty_iff]
    exact h
  constructor
  · simp [add_task, hne]
  · simp only [add_task, hne, Bool.false_eq_true, if_false]
    simp only [save_tasks, hu, if_true, fileTasks]
    exact List.mem_append_right _ (List.mem_append_right _ (List.mem_singleton.mpr rfl))

/-- Witness for C4: alice adds a task with padded title on an absent
file. -/
theorem add_task_valid_witness :
    pyStrip " Buy milk " ≠ "" ∧
    optStrTruthy (some "alice_example_com") = true ∧
    add_task ⟨[], some "alice_example_com"⟩ FileState.absent " Buy milk " "" "Low" "t1"
      = (true,
         ⟨[⟨1, some "alice_example_com", "Buy milk", "", "Low", false, "t1", none⟩],
          some "alice_example_com"⟩,
         FileState.valid
           [⟨1, some "alice_example_com", "Buy milk", "", "Low", false, "t1", none⟩]) := by
  have h := add_task_valid ⟨[], some "alice_example_com"⟩ FileState.absent
    " Buy milk " "" "Low" "t1" (by decide) (by decide)
  exact ⟨by decide, by decide, by rw [h.1]; decide⟩

/-- C7.  The scenario of spec §8: for `alice_example_com`, starting from
an empty list, add ("Buy milk", "", "Low") then ("Ship release",
"critical", "High"); `get_tasks True` sorted by the view's
priority-descending order lists the titles as
["Ship release", "Buy milk"]. -/
theorem priority_sort_scenario :
    ((sortPriorityDesc (get_tasks
      (add_task
        (add_task ⟨[], some "alice_example_com"⟩ FileState.absent
          "Buy milk" "" "Low" "2024-05-01T10:00:00").2.1
        (add_task ⟨[], some "alice_example_com"⟩ FileState.absent
          "Buy milk" "" "Low" "2024-05-01T10:00:00").2.2
        "Ship release" "critical" "High" "2024-05-01T10:05:00").2.1
      true)).map Task.title) = ["Ship release", "Buy milk"] := by
  decide

/-- A non-empty identity string is truthy, as `self.user_id` is after any
successful sign-in. -/
theorem optStrTruthy_of_ne (u : String) (hu : u ≠ "") : optStrTruthy (some u) = true := by
  have hie : u.isEmpty = false := by
    rw [← Bool.not_eq_true, String.isEmpty_iff]
    exact hu
  simp [optStrTruthy, strTruthy, hie]

/-- C8 counterexample.  `[1]` is valid JSON, and the file is present, yet
`load_tasks` raises: the comprehension calls `.get` on the integer
element, an `AttributeError` that the `except (json.JSONDecodeError,
FileNotFoundError)` clause does not catch.  So "for every file state,
load never raises to the caller" is false as stated. -/
theorem load_raises_on_nonobject :
    load_tasksJ (some "alice_example_com") (JFile.content (JVal.jarr [JVal.jnum 1]))
      = Except.error "AttributeError" := rfl

/-- C8 amended.  For a bound (non-empty) identity, `load_tasks` returns
the empty sequence on an absent file and on content that is not valid
JSON, and it never raises when the content is a JSON array of objects;
(valid JSON of any other shape can raise, per the counterexample). -/
theorem load_soft_fail (u : String) (hu : u ≠ "") :
    load_tasksJ (some u) JFile.absent = Except.ok (JVal.jarr []) ∧
    load_tasksJ (some u) JFile.invalid = Except.ok (JVal.jarr []) ∧
    ∀ items : List JVal, (∀ v ∈ items, ∃ fields, v = JVal.jobj fields) →
      ∃ kept, load_tasksJ (some u) (JFile.content (JVal.jarr items))
        = Except.ok (JVal.jarr kept) := by
  have htruthy := optStrTruthy_of_ne u hu
  refine ⟨rfl, rfl, fun items hitems => ?_⟩
  obtain ⟨kept, hk⟩ := filterUserJ_ok (some u) items hitems
  exact ⟨kept, by simp [load_tasksJ, htruthy, hk]⟩

/-- Witness for C8's amended statement at concrete inputs. -/
theorem load_soft_fail_witness :
    ("alice_example_com" ≠ "") ∧
    load_tasksJ (some "alice_example_com") JFile.absent = Except.ok (JVal.jarr []) ∧
    load_tasksJ (some "alice_example_com") JFile.invalid = Except.ok (JVal.jarr []) ∧
    ∃ kept, load_tasksJ (some "alice_example_com")
      (JFile.content (JVal.jarr [JVal.jobj [("user_id", JVal.jstr "alice_example_com")]]))
      = Except.ok (JVal.jarr kept) := by
  have h := load_soft_fail "alice_example_com" (by decide)
  refine ⟨by decide, h.1, h.2.1,
    h.2.2 [JVal.jobj [("user_id", JVal.jstr "alice_example_com")]] ?_⟩
  intro v hv
  rw [List.mem_singleton] at hv
  exact ⟨[("user_id", JVal.jstr "alice_example_com")], hv⟩

/-- C10.  Frame property of `mark_complete`, `mark_incomplete` and
`delete_task`: when no task matches the id, each returns `False` and
leaves manager and file untouched; when one does, exactly the first match
(all earlier positions have a different id) is updated/removed and the
rest of the list — including any later task with the same id — is kept
verbatim, as the take/append/drop decompositions state. -/
theorem first_match_frame (m : SimpleCloudTaskManager) (fs : FileState)
    (tid : Nat) (now : String) :
    ((∀ t ∈ m.tasks, t.id ≠ tid) →
      mark_complete m fs tid now = (false, m, fs) ∧
      mark_incomplete m fs tid = (false, m, fs) ∧
      delete_task m fs tid = (false, m, fs)) ∧
    (∀ ts', modifyFirst (completeUpd now) tid m.tasks = some ts' →
      (mark_complete m fs tid now).1 = true ∧
      (mark_complete m fs tid now).2.1.tasks = ts' ∧
      ∃ i, ∃ hi : i < m.tasks.length,
        (m.tasks.get ⟨i, hi⟩).id = tid ∧
        (∀ j, ∀ hj : j < m.tasks.length, j < i → (m.tasks.get ⟨j, hj⟩).id ≠ tid) ∧
        ts' = m.tasks.take i ++ [completeUpd now (m.tasks.get ⟨i, hi⟩)]
          ++ m.tasks.drop (i + 1)) ∧
    (∀ ts', modifyFirst incompleteUpd tid m.tasks = some ts' →
      (mark_incomplete m fs tid).1 = true ∧
      (mark_incomplete m fs tid).2.1.tasks = ts' ∧
      ∃ i, ∃ hi : i < m.tasks.length,
        (m.tasks.get ⟨i, hi⟩).id = tid ∧
        (∀ j, ∀ hj : j < m.tasks.length, j < i → (m.tasks.get ⟨j, hj⟩).id ≠ tid) ∧
        ts' = m.tasks.take i ++ [incompleteUpd (m.tasks.get ⟨i, hi⟩)]
          ++ m.tasks.drop (i + 1)) ∧
    (∀ ts', deleteFirst tid m.tasks = some ts' →
      (delete_task m fs tid).1 = true ∧
      (delete_task m fs tid).2.1.tasks = ts' ∧
      ∃ i, ∃ hi : i < m.tasks.length,
        (m.tasks.get ⟨i, hi⟩).id = tid ∧
        (∀ j, ∀ hj : j < m.tasks.length, j < i → (m.tasks.get ⟨j, hj⟩).id ≠ tid) ∧
        ts' = m.tasks.take i ++ m.tasks.drop (i + 1)) := by
  refine ⟨fun hnone => ?_, fun ts' h => ?_, fun ts' h => ?_, fun ts' h => ?_⟩
  · refine ⟨?_, ?_, ?_⟩
    · simp [mark_complete, modifyFirst_none_of (completeUpd now) tid m.tasks hnone]
    · simp [mark_incomplete, modifyFirst_none_of incompleteUpd tid m.tasks hnone]
    · simp [delete_task, deleteFirst_none_of tid m.tasks hnone]
  · exact ⟨by simp [mark_complete, h], by simp [mark_complete, h],
      modifyFirst_spec (completeUpd now) tid h⟩
  · exact ⟨by simp [mark_incomplete, h], by simp [mark_incomplete, h],
      modifyFirst_spec incompleteUpd tid h⟩
  · exact ⟨by simp [delete_task, h], by simp [delete_task, h],
      deleteFirst_spec tid h⟩

/-- Witness for C10: no task of the one-element list has id 5, and all
three operations return `False` leaving the state untouched. -/
theorem first_match_frame_witness :
    (∀ t ∈ [aliceTask], t.id ≠ 5) ∧
    mark_complete ⟨[aliceTask], some "alice_example_com"⟩ FileState.absent 5 "t9"
      = (false, ⟨[aliceTask], some "alice_example_com"⟩, FileState.absent) ∧
    delete_task ⟨[aliceTask], some "alice_example_com"⟩ FileState.absent 5
      = (false, ⟨[aliceTask], some "alice_example_com"⟩, FileState.absent) := by
  have h := (first_match_frame ⟨[aliceTask], some "alice_example_com"⟩
    FileState.absent 5 "t9").1 (by decide)
  exact ⟨by decide, h.1, h.2.2⟩

/-- C6 counterexample.  Ids need not be unique in the working set:
for `alice_example_com` on an initially absent file, the session
add "a", add "b", delete id 1, add "c" leaves two tasks that both carry
id 2 ("c" was assigned `len(tasks)+1 = 2`).  Deleting id 2 twice, with no
intervening operation, then returns `True` both times, where the claim
requires the second call to return `False`. -/
theorem delete_twice_duplicate_ids :
    (delete_task dupScenario.1 dupScenario.2 2).1 = true ∧
    (delete_task (delete_task dupScenario.1 dupScenario.2 2).2.1
      (delete_task dupScenario.1 dupScenario.2 2).2.2 2).1 = true := by
  decide

/-- C6 amended.  `delete_task` removes exactly one record — the first
whose id matches — returning `True`, and removes nothing (returning
`False`, state untouched) when no id matches; and *when the working
set's ids are pairwise distinct*, a second `delete_task` with the same
id and no intervening operations returns `False`.  (With duplicate ids,
reachable after a delete and re-add, the second call can return `True`,
per the counterexample.) -/
theorem delete_task_removes_one (m : SimpleCloudTaskManager) (fs : FileState) (tid : Nat) :
    ((∀ t ∈ m.tasks, t.id ≠ tid) → delete_task m fs tid = (false, m, fs)) ∧
    (∀ ts', deleteFirst tid m.tasks = some ts' →
      (delete_task m fs tid).1 = true ∧
      (delete_task m fs tid).2.1.tasks = ts' ∧
      ts'.length + 1 = m.tasks.length) ∧
    ((m.tasks.map Task.id).Nodup →
      ∀ ts', deleteFirst tid m.tasks = some ts' →
        (delete_task (delete_task m fs tid).2.1 (delete_task m fs tid).2.2 tid).1
          = false) := by
  refine ⟨fun hnone => ?_, fun ts' h => ?_, fun hnd ts' h => ?_⟩
  · simp [delete_task, deleteFirst_none_of tid m.tasks hnone]
  · refine ⟨by simp [delete_task, h], by simp [delete_task, h], ?_⟩
    obtain ⟨i, hi, _, _, hshape⟩ := deleteFirst_spec tid h
    rw [hshape]
    simp only [List.length_append, List.length_take, List.length_drop]
    omega
  · have hno : ∀ t ∈ ts', t.id ≠ tid := deleteFirst_not_mem_of_nodup tid hnd h
    have h1 : delete_task m fs tid
        = (true, ⟨ts', m.user_id⟩, save_tasks ⟨ts', m.user_id⟩ fs) := by
      simp [delete_task, h]
    rw [h1]
    have hnone2 : deleteFirst tid ts' = none := deleteFirst_none_of tid ts' hno
    simp [delete_task, hnone2]

/-- Witness for C6's amended statement: alice's one-task list has
distinct ids; deleting id 1 succeeds and removes the only record, so a
repeat delete returns `False`. -/
theorem delete_task_removes_one_witness :
    ([aliceTask].map Task.id).Nodup ∧
    deleteFirst 1 [aliceTask] = some [] ∧
    (delete_task ⟨[aliceTask], some "alice_example_com"⟩ FileState.absent 1).1 = true ∧
    (delete_task
      (delete_task ⟨[aliceTask], some "alice_example_com"⟩ FileState.absent 1).2.1
      (delete_task ⟨[aliceTask], some "alice_example_com"⟩ FileState.absent 1).2.2
      1).1 = false := by
  have h := delete_task_removes_one ⟨[aliceTask], some "alice_example_com"⟩
    FileState.absent 1
  exact ⟨by decide, by decide,
    (h.2.1 [] (by decide)).1,
    h.2.2 (by decide) [] (by decide)⟩

/-- C9 counterexample.  The session add "a", add "b", delete id 1,
add "c" (for `alice_example_com`, file initially absent) leaves the
in-memory working set with ids `[2, 2]`: id uniqueness does not survive
delete-then-re-add, because `add_task` assigns `len(self.tasks) + 1`. -/
theorem duplicate_ids_after_delete :
    dupScenario.1.tasks.map Task.id = [2, 2] ∧
    ¬ (dupScenario.1.tasks.map Task.id).Nodup := by
  decide

/-- One non-delete operation keeps the working set's ids equal to
`[1, 2, …, n]` (`List.range' 1 n`): `add_task` appends `n + 1`, the two
mark operations change no id. -/
theorem applyNDOp_ids (s : SimpleCloudTaskManager × FileState) (op : NDOp)
    (h : s.1.tasks.map Task.id = List.range' 1 s.1.tasks.length) :
    (applyNDOp s op).1.tasks.map Task.id
      = List.range' 1 (applyNDOp s op).1.tasks.length := by
  obtain ⟨m, fs⟩ := s
  cases op with
  | add title description priority now =>
    by_cases hb : (pyStrip title).isEmpty = true
    · simpa [applyNDOp, add_task, hb] using h
    · simp only [applyNDOp, add_task, hb, Bool.false_eq_true, if_false]
      simp only [List.map_append, List.map_cons, List.map_nil, List.length_append,
        List.length_cons, List.length_nil]
      rw [h]
      rw [show m.tasks.length + (0 + 1) = m.tasks.length + 1 by omega,
        List.range'_1_concat]
      simp [Nat.add_comm]
  | complete tid now =>
    cases hrec : modifyFirst (completeUpd now) tid m.tasks with
    | none => simpa [applyNDOp, mark_complete, hrec] using h
    | some ts' =>
      have hmap := modifyFirst_map_id (completeUpd now) tid (fun t => rfl) hrec
      have hlen : ts'.length = m.tasks.length := by
        have h2 := congrArg List.length hmap
        simpa using h2
      simp only [applyNDOp, mark_complete, hrec]
      rw [hmap, hlen]
      exact h
  | incomplete tid =>
    cases hrec : modifyFirst incompleteUpd tid m.tasks with
    | none => simpa [applyNDOp, mark_incomplete, hrec] using h
    | some ts' =>
      have hmap := modifyFirst_map_id incompleteUpd tid (fun t => rfl) hrec
      have hlen : ts'.length = m.tasks.length := by
        have h2 := congrArg List.length hmap
        simpa using h2
      simp only [applyNDOp, mark_incomplete, hrec]
      rw [hmap, hlen]
      exact h

theorem runNDOps_ids (ops : List NDOp) (s : SimpleCloudTaskManager × FileState)
    (h : s.1.tasks.map Task.id = List.range' 1 s.1.tasks.length) :
    (runNDOps s ops).1.tasks.map Task.id
      = List.range' 1 (runNDOps s ops).1.tasks.length := by
  induction ops generalizing s with
  | nil => exact h
  | cons op ops ih =>
    simp only [runNDOps, List.foldl_cons]
    exact ih (applyNDOp s op) (applyNDOp_ids s op h)

/-- C9 amended.  After every sequence of `add_task`, `mark_complete` and
`mark_incomplete` operations — `delete_task` excluded — starting from
the empty working set of a fresh session, the ids of the in-memory
working set are pairwise distinct (they are exactly `1, …, n`).
Sequences containing `delete_task` can break uniqueness, per the
counterexample. -/
theorem ids_nodup_without_delete (ops : List NDOp) (m : SimpleCloudTaskManager)
    (fs : FileState) (h : m.tasks = []) :
    (((runNDOps (m, fs) ops).1.tasks).map Task.id).Nodup := by
  have hinv := runNDOps_ids ops (m, fs) (by simp [h])
  rw [hinv]
  exact List.nodup_range' _ _

/-- Witness for C9's amended statement on a concrete session: add, then
complete, then add again. -/
theorem ids_nodup_without_delete_witness :
    ((⟨[], some "alice_example_com"⟩ : SimpleCloudTaskManager).tasks = []) ∧
    (((runNDOps (⟨[], some "alice_example_com"⟩, FileState.absent)
      [NDOp.add "a" "" "Medium" "t1", NDOp.complete 1 "t2",
       NDOp.add "b" "" "High" "t3"]).1.tasks).map Task.id).Nodup :=
  ⟨rfl,
   ids_nodup_without_delete
     [NDOp.add "a" "" "Medium" "t1", NDOp.complete 1 "t2", NDOp.add "b" "" "High" "t3"]
     ⟨[], some "alice_example_com"⟩ FileState.absent rfl⟩

/-- The completed/completed-at coherence invariant holds in every
reachable session state: construction yields the empty list, `add_task`
appends a record with `completed = False, completed_at = None`, the mark
operations set both fields together, `delete_task` only removes, and
`set_user_id` / external file writes do not touch the working set. -/
theorem reachable_coherent (s : SimpleCloudTaskManager × FileState) (h : Reachable s) :
    ∀ t ∈ s.1.tasks, t.completed_at.isSome = t.completed := by
  induction h with
  | init m fs hc =>
    intro t ht
    rw [(constructManager_ok hc).1] at ht
    simp at ht
  | step s s' hr hs ih =>
    cases hs with
    | setUid m fs u => simpa [set_user_id] using ih
    | add m fs title description priority now =>
      by_cases hb : (pyStrip title).isEmpty = true
      · simpa [add_task, hb] using ih
      · simp only [add_task, hb, Bool.false_eq_true, if_false]
        intro t ht
        rcases List.mem_append.mp ht with h1 | h2
        · exact ih t h1
        · rw [List.mem_singleton] at h2
          rw [h2]
          rfl
    | complete m fs tid now =>
      cases hrec : modifyFirst (completeUpd now) tid m.tasks with
      | none => simpa [mark_complete, hrec] using ih
      | some ts' =>
        simp only [mark_complete, hrec]
        intro t ht
        rcases modifyFirst_mem (completeUpd now) tid hrec t ht with h1 | ⟨u, _, he⟩
        · exact ih t h1
        · rw [he]
          rfl
    | incomplete m fs tid =>
      cases hrec : modifyFirst incompleteUpd tid m.tasks with
      | none => simpa [mark_incomplete, hrec] using ih
      | some ts' =>
        simp only [mark_incomplete, hrec]
        intro t ht
        rcases modifyFirst_mem incompleteUpd tid hrec t ht with h1 | ⟨u, _, he⟩
        · exact ih t h1
        · rw [he]
          rfl
    | delete m fs tid =>
      cases hrec : deleteFirst tid m.tasks with
      | none => simpa [delete_task, hrec] using ih
      | some ts' =>
        simp only [delete_task, hrec]
        intro t ht
        exact ih t (deleteFirst_subset tid hrec t ht)
    | extFile m fs fs' => exact ih

/-- C5.  `completed_at` is non-`None` exactly when `completed` is true,
for every task of every reachable session state; moreover a valid
`add_task` appends its one new record with `completed = False` and
`completed_at = None`; a succeeding `mark_complete` leaves a task with
the requested id having `completed = True` and `completed_at` the
current time; and a succeeding `mark_incomplete` leaves one with
`completed = False` and `completed_at = None`. -/
theorem completedAt_iff_completed :
    (∀ (m : SimpleCloudTaskManager) (fs : FileState), Reachable (m, fs) →
      ∀ t ∈ m.tasks, t.completed_at.isSome = t.completed) ∧
    (∀ (m : SimpleCloudTaskManager) (fs : FileState)
      (title description priority now : String), pyStrip title ≠ "" →
      ∃ t, (add_task m fs title description priority now).2.1.tasks = m.tasks ++ [t] ∧
        t.completed = false ∧ t.completed_at = none) ∧
    (∀ (m : SimpleCloudTaskManager) (fs : FileState) (tid : Nat) (now : String),
      (mark_complete m fs tid now).1 = true →
      ∃ t ∈ (mark_complete m fs tid now).2.1.tasks,
        t.id = tid ∧ t.completed = true ∧ t.completed_at = some now) ∧
    (∀ (m : SimpleCloudTaskManager) (fs : FileState) (tid : Nat),
      (mark_incomplete m fs tid).1 = true →
      ∃ t ∈ (mark_incomplete m fs tid).2.1.tasks,
        t.id = tid ∧ t.completed = false ∧ t.completed_at = none) := by
  refine ⟨fun m fs hr => reachable_coherent (m, fs) hr, ?_, ?_, ?_⟩
  · intro m fs title description priority now h
    have hne : (pyStrip title).isEmpty = false := by
      rw [← Bool.not_eq_true, String.isEmpty_iff]
      exact h
    refine ⟨⟨m.tasks.length + 1, m.user_id, pyStrip title, pyStrip description,
      priority, false, now, none⟩, ?_, rfl, rfl⟩
    simp [add_task, hne]
  · intro m fs tid now h
    cases hrec : modifyFirst (completeUpd now) tid m.tasks with
    | none => rw [mark_complete, hrec] at h; simp at h
    | some ts' =>
      obtain ⟨i, hi, hid, _, hshape⟩ := modifyFirst_spec (completeUpd now) tid hrec
      refine ⟨completeUpd now (m.tasks.get ⟨i, hi⟩), ?_, hid, rfl, rfl⟩
      simp only [mark_complete, hrec]
      rw [hshape]
      exact List.mem_append_left _ (List.mem_append_right _ (List.mem_singleton.mpr rfl))
  · intro m fs tid h
    cases hrec : modifyFirst incompleteUpd tid m.tasks with
    | none => rw [mark_incomplete, hrec] at h; simp at h
    | some ts' =>
      obtain ⟨i, hi, hid, _, hshape⟩ := modifyFirst_spec incompleteUpd tid hrec
      refine ⟨incompleteUpd (m.tasks.get ⟨i, hi⟩), ?_, hid, rfl, rfl⟩
      simp only [mark_incomplete, hrec]
      rw [hshape]
      exact List.mem_append_left _ (List.mem_append_right _ (List.mem_singleton.mpr rfl))

/-- Witness for C5: the invariant instance at the task created by a
concrete reachable session (sign in as alice, add one task). -/
theorem completedAt_iff_completed_witness :
    (⟨1, some "alice_example_com", "a", "", "Medium", false, "t1", none⟩ : Task).completed_at.isSome
      = (⟨1, some "alice_example_com", "a", "", "Medium", false, "t1", none⟩ : Task).completed :=
  completedAt_iff_completed.1
    (add_task ⟨[], some "alice_example_com"⟩ FileState.absent "a" "" "Medium" "t1").2.1
    (add_task ⟨[], some "alice_example_com"⟩ FileState.absent "a" "" "Medium" "t1").2.2
    (Reachable.step _ _
      (Reachable.step _ _ (Reachable.init ⟨[], none⟩ FileState.absent rfl)
        (Step.setUid ⟨[], none⟩ FileState.absent "alice_example_com"))
      (Step.add ⟨[], some "alice_example_com"⟩ FileState.absent "a" "" "Medium" "t1"))
    ⟨1, some "alice_example_com", "a", "", "Medium", false, "t1", none⟩
    (by decide)

end TaskMgr
